import Mathlib

/-!
Verification of the zfz interactive fuzzy selector.

Shallow embedding of the core components, translated from the Rust source:
  * `src/selector.rs`   — `SelectorMode`, `Match`, `Selector::set_pattern`
  * `src/sliding_window.rs` — `SlidingWindow` with `scroll_up`, `scroll_down`, `apply`
  * `src/ui.rs`         — `UI::print_items` (selection clamp), `UI::mainloop`
                          (key handling, raw-mode bracketing, final commit)

Strings are modelled as `List Char`; the items in every claim are ASCII, so
character offsets coincide with the byte offsets the Rust code computes.
Machine `usize` values (window size, offset, selection index) are modelled as
`Nat`; they are bounded by the number of key presses in a session, so 64-bit
overflow is unreachable and not modelled.
-/

namespace Zfz

/-- From `src/selector.rs`: `enum SelectorMode { FixedString, Fuzzy }`.
The spec additionally describes an Ordered-subsequence mode; it has no
variant in the source enum and is modelled separately below. -/
inductive SelectorMode where
  | FixedString
  | Fuzzy
deriving DecidableEq, Repr

/-- From `src/selector.rs`: `SelectorMode::from_str`, lowercasing the input and
accepting exactly "fixed" and "fuzzy". -/
def SelectorMode.from_str (s : List Char) : Except (List Char) SelectorMode :=
  let low := s.map Char.toLower
  if low = "fixed".toList then Except.ok SelectorMode.FixedString
  else if low = "fuzzy".toList then Except.ok SelectorMode.Fuzzy
  else Except.error "expected fixed or fuzzy".toList

/-- From `src/selector.rs`: `struct Match { item, highlight }` — one item plus
its list of half-open highlight spans. -/
structure Match where
  item : List Char
  highlight : List (Nat × Nat)
deriving DecidableEq, Repr

/-- Rust `str::find(pattern)`: byte index of the leftmost occurrence of
`pattern` as a contiguous substring, `none` if absent.  `find("")` is
`some 0`. -/
def strFind (pattern : List Char) : List Char → Option Nat
  | [] => if pattern.isPrefixOf ([] : List Char) then some 0 else none
  | c :: rest =>
    if pattern.isPrefixOf (c :: rest) then some 0
    else (strFind pattern rest).map (· + 1)

/-- The external fuzzy scorer (`SkimMatcherV2::fuzzy_indices` from the
`fuzzy_matcher` crate): given an item and a pattern, optionally a score and
the list of matched character indices.  The spec treats it as an opaque
externally supplied capability, so it is a parameter of the embedding. -/
def Scorer : Type := List Char → List Char → Option (Int × List Nat)

/-- From `src/selector.rs`, `Selector::set_pattern`: recompute the match list
for the current pattern.  `FixedString` keeps the items containing `pattern`
as a literal substring, with the single span of the leftmost occurrence;
`Fuzzy` keeps the items the scorer accepts, with one one-character span per
matched index.  Both branches are a `filter_map` over `items` in store
order. -/
def set_pattern (mode : SelectorMode) (scorer : Scorer)
    (items : List (List Char)) (pattern : List Char) : List Match :=
  match mode with
  | SelectorMode.FixedString =>
    items.filterMap fun item =>
      (strFind pattern item).map fun start =>
        { item := item, highlight := [(start, start + pattern.length)] }
  | SelectorMode.Fuzzy =>
    items.filterMap fun item =>
      (scorer item pattern).map fun scored =>
        { item := item, highlight := scored.2.map fun idx => (idx, idx + 1) }

/-- Modelled from the spec: the Ordered-subsequence selector mode is absent
from src (`SelectorMode` in `src/selector.rs` has only `FixedString` and
`Fuzzy`).  Per the spec, an item matches iff its characters contain the
pattern as a subsequence, found by a single greedy left-to-right scan; the
highlight is one contiguous span from the first character consumed by the
greedy match to one past the last character consumed.  `subseqScanGo` walks
the item keeping the current index and, once the first pattern character has
been consumed, the index where that happened. -/
def subseqScanGo : List Char → List Char → Nat → Option Nat → Option (Nat × Nat)
  | [], _, idx, some start => some (start, idx)
  | [], _, idx, none => some (idx, idx)
  | _ :: _, [], _, _ => none
  | p :: ps, c :: cs, idx, start =>
    if c = p then
      match ps with
      | [] => some (start.getD idx, idx + 1)
      | _ :: _ => subseqScanGo ps cs (idx + 1) (some (start.getD idx))
    else subseqScanGo (p :: ps) cs (idx + 1) start

/-- Modelled from the spec (continued): a non-empty pattern is scanned by
`subseqScanGo`; an empty pattern matches immediately with the empty span. -/
def subseqScan (pattern item : List Char) : Option (Nat × Nat) :=
  if pattern = [] then some (0, 0) else subseqScanGo pattern item 0 none

/-- Modelled from the spec: `set_pattern` for the Ordered-subsequence mode —
the same order-preserving `filter_map` shape as the two modes in
`src/selector.rs`, keeping the items whose greedy scan succeeds, each with
its single enclosing span. -/
def set_pattern_subseq (items : List (List Char)) (pattern : List Char) :
    List Match :=
  items.filterMap fun item =>
    (subseqScan pattern item).map fun span =>
      { item := item, highlight := [span] }

/-- From `src/sliding_window.rs`: `struct SlidingWindow { size, offset }`. -/
structure SlidingWindow where
  size : Nat
  offset : Nat
deriving DecidableEq, Repr

namespace SlidingWindow

/-- `SlidingWindow::new(size)`: offset starts at 0. -/
def new (size : Nat) : SlidingWindow := { size := size, offset := 0 }

/-- `SlidingWindow::scroll_down`: `self.offset += 1`, unconditional. -/
def scroll_down (w : SlidingWindow) : SlidingWindow :=
  { w with offset := w.offset + 1 }

/-- `SlidingWindow::scroll_up`: `self.offset = self.offset.saturating_sub(1)`.
`Nat` subtraction is saturating. -/
def scroll_up (w : SlidingWindow) : SlidingWindow :=
  { w with offset := w.offset - 1 }

/-- `SlidingWindow::apply`: clamp `size` to the slice length, clamp `offset`
to `len - size`, return the updated window together with the sub-slice
`slice[offset..offset+size]`. -/
def apply {T : Type} (w : SlidingWindow) (slice : List T) :
    SlidingWindow × List T :=
  let size := min w.size slice.length
  let offset := min w.offset (slice.length - size)
  ({ w with offset := offset }, (slice.drop offset).take size)

/-- One user scroll action, for talking about histories of scroll calls. -/
inductive ScrollOp where
  | up
  | down
deriving DecidableEq, Repr

/-- Run a finite history of `scroll_up`/`scroll_down` calls. -/
def runScrolls (w : SlidingWindow) : List ScrollOp → SlidingWindow
  | [] => w
  | ScrollOp.up :: ops => runScrolls w.scroll_up ops
  | ScrollOp.down :: ops => runScrolls w.scroll_down ops

end SlidingWindow

/-- Key codes distinguished by the `match key.code` in `UI::mainloop`
(`src/ui.rs`).  `other` stands for the codes the final arm ignores
(Left, Right, Home, End, PageUp, PageDown, Tab, BackTab, Delete, Insert,
F(n), Null). -/
inductive KeyCode where
  | enter
  | esc
  | backspace
  | up
  | down
  | char (c : Char)
  | other
deriving DecidableEq, Repr

/-- A decoded key event: code plus whether the CONTROL modifier is held
(`key.modifiers.contains(KeyModifiers::CONTROL)`). -/
structure KeyEvent where
  code : KeyCode
  ctrl : Bool
deriving DecidableEq, Repr

/-- One unit read from the terminal (`crossterm::event::read`): a key event,
or a mouse / resize event that the loop skips by `continue`. -/
inductive Event where
  | key (k : KeyEvent)
  | mouse
  | resize
deriving DecidableEq, Repr

/-- The session configuration fixed before `mainloop` runs: the selector
mode, the opaque external scorer, and the immutable item store. -/
structure Config where
  mode : SelectorMode
  scorer : Scorer
  items : List (List Char)

/-- The current match list, as held by the cached `Selector::matches` after
`set_pattern(pattern)`: `set_pattern` recomputes it wholesale, so the cache
always equals this function of the pattern. -/
def matchesOf (cfg : Config) (pattern : List Char) : List Match :=
  set_pattern cfg.mode cfg.scorer cfg.items pattern

/-- The mutable state of `struct UI` used by `mainloop` (`src/ui.rs`),
together with the loop-local `pattern` string: the typed pattern, the
selection index, the sliding window, and `match_amount` (the visible length
recorded by the last `print_items`). -/
structure UIState where
  pattern : List Char
  selected : Nat
  window : SlidingWindow
  match_amount : Nat
deriving Repr

/-- `UI::print_items` state effect (`src/ui.rs` lines 126-155): apply the
window to the current matches (mutating the window's offset), record the
visible length in `match_amount`, and clamp the selection: if
`selected >= match_amount` then `selected = match_amount.saturating_sub(1)`.
The drawing side effects carry no state. -/
def print_items (cfg : Config) (st : UIState) : UIState :=
  let wv := st.window.apply (matchesOf cfg st.pattern)
  let ma := wv.2.length
  { st with
    window := wv.1
    match_amount := ma
    selected := if ma ≤ st.selected then ma - 1 else st.selected }

/-- Result of one loop iteration: keep looping with the new state, or break
out of the loop with the state at the break. -/
inductive StepResult where
  | cont (st : UIState)
  | brk (st : UIState)
deriving Repr

/-- One iteration of the `loop` in `UI::mainloop` on a key event, following
the `match key.code` arms in source order: Enter and Esc break; `Char('c')`
with CONTROL breaks; Backspace pops the pattern and reprints; Up/Down first
apply the window, skip if no matches, scroll at the boundary (reprinting) or
move the selection by one; any other `Char(ch)` is pushed onto the pattern;
the remaining codes are ignored. -/
def step (cfg : Config) (st : UIState) (key : KeyEvent) : StepResult :=
  match key.code with
  | KeyCode.enter => StepResult.brk st
  | KeyCode.esc => StepResult.brk st
  | KeyCode.backspace =>
    StepResult.cont (print_items cfg { st with pattern := st.pattern.dropLast })
  | KeyCode.up =>
    let wv := st.window.apply (matchesOf cfg st.pattern)
    let st1 := { st with window := wv.1 }
    if wv.2.isEmpty then StepResult.cont st1
    else if st1.selected = 0 then
      StepResult.cont (print_items cfg { st1 with window := st1.window.scroll_up })
    else StepResult.cont { st1 with selected := st1.selected - 1 }
  | KeyCode.down =>
    let wv := st.window.apply (matchesOf cfg st.pattern)
    let st1 := { st with window := wv.1 }
    if wv.2.isEmpty then StepResult.cont st1
    else if st1.selected = st1.match_amount - 1 then
      StepResult.cont (print_items cfg { st1 with window := st1.window.scroll_down })
    else StepResult.cont { st1 with selected := st1.selected + 1 }
  | KeyCode.char c =>
    if c = 'c' && key.ctrl then StepResult.brk st
    else StepResult.cont (print_items cfg { st with pattern := st.pattern ++ [c] })
  | KeyCode.other => StepResult.cont st

/-- The code after the `loop` in `UI::mainloop` (`src/ui.rs` lines 288-307):
apply the window to the matches once more and look up the selection index in
the visible slice; if an element is there, its item is printed as a single
line to stdout (the primary output channel) — that printed line is the
session's committed result, `none` otherwise.  This runs on every break
path. -/
def final_output (cfg : Config) (st : UIState) : Option (List Char) :=
  ((st.window.apply (matchesOf cfg st.pattern)).2.get? st.selected).map Match.item

/-- Drive the loop over a finite list of read events: mouse and resize
events are skipped, a key event takes a `step`; on break the committed item
(or `none`) is returned.  `none` overall means the reads ran out with the
session still blocked on the next read. -/
def runLoop (cfg : Config) : UIState → List Event → Option (Option (List Char))
  | _, [] => none
  | st, Event.mouse :: es => runLoop cfg st es
  | st, Event.resize :: es => runLoop cfg st es
  | st, Event.key k :: es =>
    match step cfg st k with
    | StepResult.brk st1 => some (final_output cfg st1)
    | StepResult.cont st1 => runLoop cfg st1 es

/-- The state at the first blocking read: `UI::new` starts with empty
pattern, selection 0, window at offset 0 with the configured size,
`match_amount` 0; `mainloop` then prints the prompt and runs `print_items`
once before reading (`src/ui.rs` lines 158-164). -/
def initState (cfg : Config) (S : Nat) : UIState :=
  print_items cfg
    { pattern := [], selected := 0, window := SlidingWindow.new S, match_amount := 0 }

/-- `UI::mainloop` as a function of the configuration, the window size
computed at startup, and the sequence of events the terminal delivers:
`some r` when a break key ends the session with committed result `r`. -/
def mainloop (cfg : Config) (S : Nat) (events : List Event) :
    Option (Option (List Char)) :=
  runLoop cfg (initState cfg S) events

/-- Drive the loop when terminal reads may fail: each entry is either a
successfully read event or a read error (`crossterm::event::read()?`).  The
result records the session outcome together with how many times the
pre-raw-mode configuration was restored on that path.  In `mainloop`
(`src/ui.rs`) the only call of `disable_raw_mode` sits after the `loop`, so
a break restores once, while an error inside the loop propagates through `?`
with no restore at all. -/
def runLoopE (cfg : Config) :
    UIState → List (Except Unit Event) →
      Option (Except Unit (Option (List Char)) × Nat)
  | _, [] => none
  | _, Except.error e :: _ => some (Except.error e, 0)
  | st, Except.ok Event.mouse :: es => runLoopE cfg st es
  | st, Except.ok Event.resize :: es => runLoopE cfg st es
  | st, Except.ok (Event.key k) :: es =>
    match step cfg st k with
    | StepResult.brk st1 => some (Except.ok (final_output cfg st1), 1)
    | StepResult.cont st1 => runLoopE cfg st1 es

/-- `UI::mainloop` with fallible reads, starting (as the code does) after
`enable_raw_mode()` succeeded and captured the pre-raw configuration. -/
def mainloopE (cfg : Config) (S : Nat) (reads : List (Except Unit Event)) :
    Option (Except Unit (Option (List Char)) × Nat) :=
  runLoopE cfg (initState cfg S) reads

/-! Helper definitions used across the theorems. -/

/-- Whether an item is kept by `set_pattern` in the given mode: `FixedString`
keeps it when `strFind` succeeds, `Fuzzy` when the scorer accepts it. -/
def matched (mode : SelectorMode) (scorer : Scorer)
    (pattern item : List Char) : Bool :=
  match mode with
  | SelectorMode.FixedString => (strFind pattern item).isSome
  | SelectorMode.Fuzzy => (scorer item pattern).isSome

/-- A scorer that accepts nothing; `FixedString` mode never consults it. -/
def noScorer : Scorer := fun _ _ => none

/-- A fixed-string session configuration over the given item store. -/
def fixedCfg (items : List (List Char)) : Config :=
  { mode := SelectorMode.FixedString, scorer := noScorer, items := items }

/-- The item store of the spec's end-to-end example. -/
def items4 : List (List Char) :=
  ["a".toList, "boo".toList, "foo".toList, "gloo".toList]

/-- The end-to-end example session configuration: `items4`, fixed mode. -/
def cfg4 : Config := fixedCfg items4

/-- A printable-character key press without modifiers. -/
def keyChar (c : Char) : Event := Event.key { code := KeyCode.char c, ctrl := false }

/-- The Down arrow key press. -/
def keyDown : Event := Event.key { code := KeyCode.down, ctrl := false }

/-- The Enter key press. -/
def keyEnter : Event := Event.key { code := KeyCode.enter, ctrl := false }

/-- The state after one event when the loop does not break on it (mouse and
resize events leave the state unchanged; a break key is absorbing). -/
def stepState (cfg : Config) (st : UIState) (e : Event) : UIState :=
  match e with
  | Event.key k =>
    match step cfg st k with
    | StepResult.cont st1 => st1
    | StepResult.brk st1 => st1
  | Event.mouse => st
  | Event.resize => st

/-- The state after a sequence of non-breaking events. -/
def stepsState (cfg : Config) (st : UIState) (es : List Event) : UIState :=
  es.foldl (stepState cfg) st

/-! Helper lemmas. -/

theorem set_pattern_map_item (mode : SelectorMode) (scorer : Scorer)
    (items : List (List Char)) (pattern : List Char) :
    (set_pattern mode scorer items pattern).map Match.item
      = items.filter (matched mode scorer pattern) := by
  cases mode with
  | FixedString =>
    induction items with
    | nil => rfl
    | cons it rest ih =>
      simp only [set_pattern, List.filterMap_cons] at ih ⊢
      cases h : strFind pattern it with
      | none => simpa [matched, h, List.filter_cons] using ih
      | some s => simpa [matched, h, List.filter_cons] using ih
  | Fuzzy =>
    induction items with
    | nil => rfl
    | cons it rest ih =>
      simp only [set_pattern, List.filterMap_cons] at ih ⊢
      cases h : scorer it pattern with
      | none => simpa [matched, h, List.filter_cons] using ih
      | some s => simpa [matched, h, List.filter_cons] using ih

theorem strFind_nil_pattern (item : List Char) : strFind [] item = some 0 := by
  cases item <;> simp [strFind, List.isPrefixOf]

theorem strFind_isSome_iff (pattern item : List Char) :
    (strFind pattern item).isSome = true ↔ pattern <:+: item := by
  induction item with
  | nil =>
    cases pattern with
    | nil => simp [strFind, List.isPrefixOf]
    | cons p ps => simp [strFind, List.isPrefixOf]
  | cons c cs ih =>
    simp only [strFind]
    by_cases h : pattern.isPrefixOf (c :: cs) = true
    · simp only [h, if_true, Option.isSome_some, true_iff]
      exact (List.isPrefixOf_iff_prefix.mp h).isInfix
    · rw [Bool.not_eq_true] at h
      have h2 : ¬ pattern <+: (c :: cs) := by
        rw [← List.isPrefixOf_iff_prefix, h]
        simp
      simp only [h, Bool.false_eq_true, if_false, Option.isSome_map', ih,
        List.infix_cons_iff]
      tauto

theorem strFind_spec (pattern item : List Char) (s : Nat)
    (h : strFind pattern item = some s) :
    pattern.isPrefixOf (item.drop s) = true
      ∧ ∀ j, j < s → pattern.isPrefixOf (item.drop j) = false := by
  induction item generalizing s with
  | nil =>
    simp only [strFind] at h
    split at h
    · next hp =>
      cases h
      exact ⟨hp, by omega⟩
    · cases h
  | cons c cs ih =>
    simp only [strFind] at h
    split at h
    · next hp =>
      cases h
      exact ⟨hp, by omega⟩
    · next hp =>
      obtain ⟨t, ht, hst⟩ := Option.map_eq_some'.mp h
      obtain ⟨h1, h2⟩ := ih t ht
      subst hst
      refine ⟨by simpa using h1, ?_⟩
      intro j hj
      cases j with
      | zero =>
        simpa using Bool.not_eq_true _ ▸ hp
      | succ k =>
        simpa using h2 k (by omega)

/-- The score the scorer assigns to a produced match (0 if it rejects it). -/
def scoreOf (scorer : Scorer) (pattern : List Char) (m : Match) : Int :=
  ((scorer m.item pattern).map Prod.fst).getD 0

/-- A concrete external scorer for which the scorer's best-to-worst order
disagrees with the item store order: both items of the two-item store match,
with the second item scoring strictly higher (better). -/
def cScorer : Scorer := fun item _ =>
  if item = "a".toList then some (1, [0])
  else if item = "b".toList then some (2, [0])
  else none

/-! Theorems for the claims. -/

/-- C10: in both modes, for every scorer, item list and pattern,
`set_pattern` is an order-preserving filter of the item store — the produced
items are exactly the matching store entries, in store order, so the match
list is a sublist of the store (no reordering, no duplication, no
non-matching item retained). -/
theorem spec_c10 (mode : SelectorMode) (scorer : Scorer)
    (items : List (List Char)) (pattern : List Char) :
    (set_pattern mode scorer items pattern).map Match.item
        = items.filter (matched mode scorer pattern)
    ∧ List.Sublist ((set_pattern mode scorer items pattern).map Match.item)
        items := by
  refine ⟨set_pattern_map_item mode scorer items pattern, ?_⟩
  rw [set_pattern_map_item mode scorer items pattern]
  exact List.filter_sublist items

/-- C3, counterexample: with a concrete scorer on the store `["a", "b"]`
where `"a"` scores 1 and `"b"` scores 2, `set_pattern` in Fuzzy mode keeps
the store order `[a, b]`, which is not ordered best-to-worst by the scorer's
score — refuting the claim that the MatchSet is ordered by score rather
than by store position. -/
theorem spec_c3_counterexample :
    set_pattern SelectorMode.Fuzzy cScorer ["a".toList, "b".toList] "x".toList
      = [{ item := "a".toList, highlight := [(0, 1)] },
         { item := "b".toList, highlight := [(0, 1)] }]
    ∧ scoreOf cScorer "x".toList { item := "a".toList, highlight := [(0, 1)] } = 1
    ∧ scoreOf cScorer "x".toList { item := "b".toList, highlight := [(0, 1)] } = 2
    ∧ ¬ List.Chain'
        (fun m1 m2 => scoreOf cScorer "x".toList m2 ≤ scoreOf cScorer "x".toList m1)
        (set_pattern SelectorMode.Fuzzy cScorer ["a".toList, "b".toList] "x".toList) := by
  refine ⟨by decide, by decide, by decide, ?_⟩
  intro hch
  have h12 : scoreOf cScorer "x".toList { item := "b".toList, highlight := [(0, 1)] }
      ≤ scoreOf cScorer "x".toList { item := "a".toList, highlight := [(0, 1)] } := by
    have hev : set_pattern SelectorMode.Fuzzy cScorer
        ["a".toList, "b".toList] "x".toList
        = [{ item := "a".toList, highlight := [(0, 1)] },
           { item := "b".toList, highlight := [(0, 1)] }] := by decide
    rw [hev] at hch
    exact List.chain'_cons.mp hch |>.1
  revert h12
  decide

/-- C3, amended: in Fuzzy mode, for every scorer, item list and pattern, the
MatchSet produced by `set_pattern` keeps the items' store order — it is the
order-preserving filter of the store by scorer acceptance, not a list sorted
by the scorer's score. -/
theorem spec_c3_amended (scorer : Scorer) (items : List (List Char))
    (pattern : List Char) :
    (set_pattern SelectorMode.Fuzzy scorer items pattern).map Match.item
      = items.filter fun it => (scorer it pattern).isSome :=
  set_pattern_map_item SelectorMode.Fuzzy scorer items pattern

/-- Bounds on one `apply` call, for any window state whatsoever. -/
theorem apply_bounds {α : Type} (w : SlidingWindow) (slice : List α) :
    ((w.apply slice).2).length = min w.size slice.length
    ∧ (w.apply slice).1.offset ≤ slice.length - min w.size slice.length
    ∧ (w.apply slice).1.offset + ((w.apply slice).2).length ≤ slice.length
    ∧ (w.apply slice).1.size = w.size := by
  simp only [SlidingWindow.apply, List.length_take, List.length_drop]
  refine ⟨by omega, by omega, by omega, by trivial⟩

/-- `runScrolls` never touches the configured size. -/
theorem runScrolls_size (w : SlidingWindow) (ops : List SlidingWindow.ScrollOp) :
    (SlidingWindow.runScrolls w ops).size = w.size := by
  induction ops generalizing w with
  | nil => rfl
  | cons op rest ih =>
    cases op with
    | up => simpa [SlidingWindow.runScrolls, SlidingWindow.scroll_up] using ih _
    | down => simpa [SlidingWindow.runScrolls, SlidingWindow.scroll_down] using ih _

/-- C6, counterexample: with configured window size 1, scrolling down 5
times past a 3-item list and then calling `apply` leaves the offset clamped
at 2, not 0 — refuting the claim's "in particular" instance for an
arbitrary configured size. -/
theorem spec_c6_counterexample :
    ((SlidingWindow.runScrolls (SlidingWindow.new 1)
        (List.replicate 5 SlidingWindow.ScrollOp.down)).apply
        ([0, 1, 2] : List Nat)).1.offset = 2
    ∧ ¬ ((SlidingWindow.runScrolls (SlidingWindow.new 1)
        (List.replicate 5 SlidingWindow.ScrollOp.down)).apply
        ([0, 1, 2] : List Nat)).1.offset = 0 := by
  constructor <;> decide

/-- C6, amended: for every configured window size `S`, input slice and
finite history of scroll calls, `apply` returns a slice of length
`min S len`, leaves the offset at most `len - min S len` (Nat subtraction,
i.e. `max 0 (len - S)`), and never reads past the input end; the concrete
"scroll down 5 times past a 3-item list yields offset 0" instance holds for
every configured size of at least 3 (for smaller sizes the offset clamps to
`len - S` instead). -/
theorem spec_c6_amended {α : Type} (S : Nat)
    (ops : List SlidingWindow.ScrollOp) (slice : List α) :
    (((SlidingWindow.runScrolls (SlidingWindow.new S) ops).apply slice).2).length
        = min S slice.length
    ∧ ((SlidingWindow.runScrolls (SlidingWindow.new S) ops).apply slice).1.offset
        ≤ slice.length - min S slice.length
    ∧ ((SlidingWindow.runScrolls (SlidingWindow.new S) ops).apply slice).1.offset
        + (((SlidingWindow.runScrolls (SlidingWindow.new S) ops).apply slice).2).length
        ≤ slice.length
    ∧ (3 ≤ S →
        ((SlidingWindow.runScrolls (SlidingWindow.new S)
            (List.replicate 5 SlidingWindow.ScrollOp.down)).apply
            ([0, 1, 2] : List Nat)).1.offset = 0) := by
  have hsz : (SlidingWindow.runScrolls (SlidingWindow.new S) ops).size = S :=
    runScrolls_size _ _
  obtain ⟨h1, h2, h3, _⟩ :=
    apply_bounds (SlidingWindow.runScrolls (SlidingWindow.new S) ops) slice
  rw [hsz] at h1 h2
  refine ⟨h1, h2, h3, ?_⟩
  intro hS
  have h5 : SlidingWindow.runScrolls (SlidingWindow.new S)
      (List.replicate 5 SlidingWindow.ScrollOp.down) = { size := S, offset := 5 } := by
    simp [List.replicate, SlidingWindow.runScrolls, SlidingWindow.new,
      SlidingWindow.scroll_down]
  rw [h5]
  show min 5 (3 - min S 3) = 0
  rw [Nat.min_eq_right hS]
  simp

/-- C6, witness for the amended theorem at size 3, five scroll-downs and the
3-item slice. -/
theorem spec_c6_witness :
    (3 ≤ 3)
    ∧ ((SlidingWindow.runScrolls (SlidingWindow.new 3)
        (List.replicate 5 SlidingWindow.ScrollOp.down)).apply
        ([0, 1, 2] : List Nat)).1.offset = 0 :=
  ⟨by decide,
    (spec_c6_amended 3 (List.replicate 5 SlidingWindow.ScrollOp.down)
      ([0, 1, 2] : List Nat)).2.2.2 (by decide)⟩

/-- C7: `scroll_down` increments the offset by exactly one regardless of the
current offset (and consults no list, so no clamping can happen), and
`scroll_up` decrements by one with a floor of 0, leaving offset 0
unchanged. -/
theorem spec_c7 (w : SlidingWindow) :
    w.scroll_down.offset = w.offset + 1
    ∧ w.scroll_down.size = w.size
    ∧ w.scroll_up.offset = w.offset - 1
    ∧ (w.offset = 0 → w.scroll_up = w)
    ∧ (0 < w.offset → w.scroll_up.offset + 1 = w.offset) := by
  obtain ⟨sz, off⟩ := w
  refine ⟨rfl, rfl, rfl, ?_, ?_⟩
  · intro h
    simp_all [SlidingWindow.scroll_up]
  · intro h
    simp_all [SlidingWindow.scroll_up]
    omega

/-- C7, witness at offsets 0 and 3. -/
theorem spec_c7_witness :
    SlidingWindow.scroll_up { size := 5, offset := 0 } = { size := 5, offset := 0 }
    ∧ (SlidingWindow.scroll_up { size := 5, offset := 3 }).offset + 1 = 3 :=
  ⟨(spec_c7 { size := 5, offset := 0 }).2.2.2.1 rfl,
    (spec_c7 { size := 5, offset := 3 }).2.2.2.2 (by decide)⟩

/-- C8: `print_items` clamps the selection: when the visible slice has
shrunk to or below the selection index, the selection is reset to
`visible length - 1` (which is 0 when the visible set is empty, by Nat
subtraction); consequently after every render the selection index is
strictly below the visible length whenever the visible set is non-empty. -/
theorem spec_c8 (cfg : Config) (st : UIState) :
    ((st.window.apply (matchesOf cfg st.pattern)).2.length ≤ st.selected →
      (print_items cfg st).selected
        = (st.window.apply (matchesOf cfg st.pattern)).2.length - 1)
    ∧ ((st.window.apply (matchesOf cfg st.pattern)).2.length = 0 →
      (print_items cfg st).selected = 0)
    ∧ ((st.window.apply (matchesOf cfg st.pattern)).2.length ≠ 0 →
      (print_items cfg st).selected
        < (st.window.apply (matchesOf cfg st.pattern)).2.length) := by
  simp only [print_items]
  refine ⟨?_, ?_, ?_⟩ <;> intro h
  · rw [if_pos h]
  · rw [if_pos (by omega)]
    omega
  · split
    · omega
    · omega

/-- The single-item store configuration used in concrete session runs. -/
def cfgA : Config := fixedCfg ["a".toList]

/-- A state whose selection index 5 exceeds the one-item visible set. -/
def stC8 : UIState :=
  { pattern := [], selected := 5, window := SlidingWindow.new 3, match_amount := 0 }

/-- C8, witness: a one-item visible set with the selection at 5 is reset to
`length - 1 = 0`. -/
theorem spec_c8_witness :
    (stC8.window.apply (matchesOf cfgA stC8.pattern)).2.length ≤ stC8.selected
    ∧ (print_items cfgA stC8).selected
        = (stC8.window.apply (matchesOf cfgA stC8.pattern)).2.length - 1 :=
  ⟨by decide, (spec_c8 cfgA stC8).1 (by decide)⟩

/-- C5: in `FixedString` mode, for every non-empty pattern an item of the
store appears in the MatchSet iff the pattern is a literal (contiguous)
substring of it; every produced match carries the single span
`[start, start + pattern length)` at the leftmost occurrence (the pattern is
a prefix of the item dropped at `start` and at no earlier index); and for
the empty pattern every item matches with the single empty span `(0, 0)`. -/
theorem spec_c5 (scorer : Scorer) (items : List (List Char))
    (pattern it : List Char) :
    (pattern ≠ [] →
      (it ∈ (set_pattern SelectorMode.FixedString scorer items pattern).map Match.item
        ↔ it ∈ items ∧ pattern <:+: it))
    ∧ (∀ m, m ∈ set_pattern SelectorMode.FixedString scorer items pattern →
        ∃ s, m.highlight = [(s, s + pattern.length)]
          ∧ pattern.isPrefixOf (m.item.drop s) = true
          ∧ ∀ j, j < s → pattern.isPrefixOf (m.item.drop j) = false)
    ∧ (pattern = [] →
        set_pattern SelectorMode.FixedString scorer items pattern
          = items.map fun x => { item := x, highlight := [(0, 0)] }) := by
  refine ⟨?_, ?_, ?_⟩
  · intro _
    rw [set_pattern_map_item]
    simp only [List.mem_filter, matched, strFind_isSome_iff]
  · intro m hm
    simp only [set_pattern, List.mem_filterMap] at hm
    obtain ⟨a, _, ha⟩ := hm
    obtain ⟨s, hs, hsm⟩ := Option.map_eq_some'.mp ha
    obtain ⟨h1, h2⟩ := strFind_spec pattern a s hs
    subst hsm
    exact ⟨s, rfl, h1, h2⟩
  · intro hp
    subst hp
    induction items with
    | nil => rfl
    | cons a rest ih =>
      simp only [set_pattern, List.filterMap_cons, strFind_nil_pattern,
        Option.map_some', List.length_nil, Nat.add_zero, List.map_cons] at ih ⊢
      rw [ih]

/-- C5, witness: on the end-to-end store with pattern `"oo"`, membership in
the match list coincides with literal-substring containment for the item
`"boo"`; with the empty pattern, the whole store is returned with empty
spans. -/
theorem spec_c5_witness :
    ("boo".toList ∈ (set_pattern SelectorMode.FixedString noScorer items4
        "oo".toList).map Match.item
      ↔ "boo".toList ∈ items4 ∧ "oo".toList <:+: "boo".toList)
    ∧ set_pattern SelectorMode.FixedString noScorer items4 ([] : List Char)
        = items4.map fun x => { item := x, highlight := [(0, 0)] } :=
  ⟨(spec_c5 noScorer items4 "oo".toList "boo".toList).1 (by decide),
    (spec_c5 noScorer items4 ([] : List Char) "boo".toList).2.2 rfl⟩

/-- The greedy scan over a non-empty pattern succeeds exactly when the
pattern is a subsequence of the item, whatever the running index and span
start. -/
theorem subseqScanGo_isSome_iff (item : List Char) :
    ∀ (p : Char) (ps : List Char) (idx : Nat) (start : Option Nat),
      (subseqScanGo (p :: ps) item idx start).isSome = true
        ↔ List.Sublist (p :: ps) item := by
  induction item with
  | nil =>
    intro p ps idx start
    simp [subseqScanGo]
  | cons c cs ih =>
    intro p ps idx start
    simp only [subseqScanGo]
    by_cases hcp : c = p
    · rw [if_pos hcp]
      subst hcp
      cases ps with
      | nil =>
        simp [List.singleton_sublist]
      | cons q qs =>
        rw [ih q qs]
        exact (List.cons_sublist_cons).symm
    · rw [if_neg hcp, ih p ps]
      rw [List.sublist_cons_iff]
      constructor
      · exact Or.inl
      · rintro (h | ⟨r, hr, _⟩)
        · exact h
        · cases hr
          exact absurd rfl hcp

/-- C4 (spec-modelled: the Ordered-subsequence mode has no variant in
`SelectorMode` in `src/selector.rs`; the mode is modelled from the spec's
words): an item matches iff its characters contain the pattern as a
subsequence; every produced match carries exactly one contiguous enclosing
span; and on the items `["a", "boo", "foo", "", "gloo"]` with pattern
`"oo"` the matches, in preserved order, are `boo` with span `(1, 3)`,
`foo` with span `(1, 3)` and `gloo` with span `(2, 4)`, with `"a"` and the
empty item excluded. -/
theorem spec_c4 :
    (∀ pattern item : List Char,
      (subseqScan pattern item).isSome = true ↔ List.Sublist pattern item)
    ∧ (∀ (items : List (List Char)) (pattern : List Char),
        ∀ m ∈ set_pattern_subseq items pattern, ∃ sp, m.highlight = [sp])
    ∧ set_pattern_subseq
        ["a".toList, "boo".toList, "foo".toList, [], "gloo".toList] "oo".toList
      = [{ item := "boo".toList, highlight := [(1, 3)] },
         { item := "foo".toList, highlight := [(1, 3)] },
         { item := "gloo".toList, highlight := [(2, 4)] }] := by
  refine ⟨?_, ?_, by decide⟩
  · intro pattern item
    cases pattern with
    | nil => simp [subseqScan]
    | cons p ps =>
      rw [subseqScan, if_neg (by simp)]
      exact subseqScanGo_isSome_iff item p ps 0 none
  · intro items pattern m hm
    simp only [set_pattern_subseq, List.mem_filterMap] at hm
    obtain ⟨a, _, ha⟩ := hm
    obtain ⟨sp, _, hspm⟩ := Option.map_eq_some'.mp ha
    subst hspm
    exact ⟨sp, rfl⟩

/-- C1, counterexample: on the one-item store `["a"]` the session state at
the Ctrl-C (and at the Escape) press has `"a"` selected, and the mainloop
result is the committed item `"a"`, not `none` — interrupt and Escape do
not discard the selection. -/
theorem spec_c1_counterexample :
    mainloop cfgA 5 [Event.key { code := KeyCode.char 'c', ctrl := true }]
        = some (some "a".toList)
    ∧ mainloop cfgA 5 [Event.key { code := KeyCode.esc, ctrl := false }]
        = some (some "a".toList)
    ∧ ¬ mainloop cfgA 5 [Event.key { code := KeyCode.char 'c', ctrl := true }]
        = some none := by
  refine ⟨by decide, by decide, by decide⟩

/-- C1, amended: interrupt (Ctrl-C) and Escape terminate the session exactly
as Enter does, committing the item at the current selection index of the
final visible slice to the primary output channel; the result is `none`
precisely when that slice has no element at the selection index (in
particular when the visible match set is empty). -/
theorem spec_c1_amended (cfg : Config) (st : UIState) (es : List Event) (b : Bool) :
    runLoop cfg st (Event.key { code := KeyCode.char 'c', ctrl := true } :: es)
        = some (final_output cfg st)
    ∧ runLoop cfg st (Event.key { code := KeyCode.esc, ctrl := b } :: es)
        = some (final_output cfg st)
    ∧ runLoop cfg st (Event.key { code := KeyCode.enter, ctrl := b } :: es)
        = some (final_output cfg st)
    ∧ (final_output cfg st = none ↔
        (st.window.apply (matchesOf cfg st.pattern)).2.length ≤ st.selected) := by
  refine ⟨?_, ?_, ?_, ?_⟩
  · simp [runLoop, step]
  · simp [runLoop, step]
  · simp [runLoop, step]
  · simp [final_output, Option.map_eq_none', List.get?_eq_none]

/-- C2: the pre-raw-mode configuration is restored exactly once on the
normal exit path (here: Enter at the initial state, which also commits the
top item `"a"`), but when a terminal read fails inside the loop the error
propagates to the caller with zero restores — `disable_raw_mode` in
`UI::mainloop` sits only after the loop, with no scoped guard covering the
error path. -/
theorem spec_c2_raw_mode :
    mainloopE cfg4 3 [Except.error ()] = some (Except.error (), 0)
    ∧ mainloopE cfg4 3 [Except.ok keyEnter]
        = some (Except.ok (some "a".toList), 1) := by
  refine ⟨rfl, rfl⟩

/-- The match list of the end-to-end example after typing `"oo"`. -/
def matchesOO : List Match :=
  [{ item := "boo".toList, highlight := [(1, 3)] },
   { item := "foo".toList, highlight := [(1, 3)] },
   { item := "gloo".toList, highlight := [(2, 4)] }]

/-- C9: in the end-to-end example (store `["a", "boo", "foo", "gloo"]`,
fixed mode, any startup window size of at least 3 so that all three matches
are visible), typing `"oo"` yields the visible set `[boo, foo, gloo]` with
highlight spans `(1,3)`, `(1,3)`, `(2,4)` and the selection on `boo`
(index 0); one Down press moves the selection to `foo` (index 1); Enter then
terminates the session committing `"foo"` on the primary output channel. -/
theorem spec_c9 (S : Nat) (hS : 3 ≤ S) :
    ((stepsState cfg4 (initState cfg4 S) [keyChar 'o', keyChar 'o']).window.apply
        (matchesOf cfg4
          (stepsState cfg4 (initState cfg4 S) [keyChar 'o', keyChar 'o']).pattern)).2
      = matchesOO
    ∧ (stepsState cfg4 (initState cfg4 S) [keyChar 'o', keyChar 'o']).selected = 0
    ∧ (stepsState cfg4 (initState cfg4 S) [keyChar 'o', keyChar 'o', keyDown]).selected = 1
    ∧ mainloop cfg4 S [keyChar 'o', keyChar 'o', keyDown, keyEnter]
        = some (some "foo".toList) := by
  have hm0 : matchesOf cfg4 [] =
      [{ item := "a".toList, highlight := [(0, 0)] },
       { item := "boo".toList, highlight := [(0, 0)] },
       { item := "foo".toList, highlight := [(0, 0)] },
       { item := "gloo".toList, highlight := [(0, 0)] }] := by decide
  have hm1 : matchesOf cfg4 ['o'] =
      [{ item := "boo".toList, highlight := [(1, 2)] },
       { item := "foo".toList, highlight := [(1, 2)] },
       { item := "gloo".toList, highlight := [(2, 3)] }] := by decide
  have hm2 : matchesOf cfg4 ['o', 'o'] = matchesOO := by decide
  have hmin3 : min S 3 = 3 := Nat.min_eq_right hS
  have hmin4 : 0 < min S 4 := lt_min (by omega) (by omega)
  have h0 : initState cfg4 S =
      { pattern := [], selected := 0, window := { size := S, offset := 0 },
        match_amount := min S 4 } := by
    simp only [initState, print_items, hm0, SlidingWindow.new, SlidingWindow.apply,
      List.drop_zero, List.length_take, List.length_cons, List.length_nil,
      Nat.zero_min]
    norm_num [min_assoc, min_self]
    omega
  have hs1 : step cfg4
      { pattern := [], selected := 0, window := { size := S, offset := 0 },
        match_amount := min S 4 }
      { code := KeyCode.char 'o', ctrl := false }
      = StepResult.cont
        { pattern := ['o'], selected := 0, window := { size := S, offset := 0 },
          match_amount := 3 } := by
    simp [step, print_items, hm1, SlidingWindow.apply, hmin3]
  have hs2 : step cfg4
      { pattern := ['o'], selected := 0, window := { size := S, offset := 0 },
        match_amount := 3 }
      { code := KeyCode.char 'o', ctrl := false }
      = StepResult.cont
        { pattern := ['o', 'o'], selected := 0, window := { size := S, offset := 0 },
          match_amount := 3 } := by
    simp [step, print_items, hm2, SlidingWindow.apply, hmin3, matchesOO]
  have hs3 : step cfg4
      { pattern := ['o', 'o'], selected := 0, window := { size := S, offset := 0 },
        match_amount := 3 }
      { code := KeyCode.down, ctrl := false }
      = StepResult.cont
        { pattern := ['o', 'o'], selected := 1, window := { size := S, offset := 0 },
          match_amount := 3 } := by
    simp [step, hm2, SlidingWindow.apply, hmin3, matchesOO]
  have hs4 : final_output cfg4
      { pattern := ['o', 'o'], selected := 1, window := { size := S, offset := 0 },
        match_amount := 3 }
      = some "foo".toList := by
    simp [final_output, hm2, SlidingWindow.apply, hmin3, matchesOO]
  refine ⟨?_, ?_, ?_, ?_⟩
  · rw [h0]
    simp only [stepsState, List.foldl_cons, List.foldl_nil, stepState, keyChar,
      hs1, hs2]
    rw [hm2]
    simp [SlidingWindow.apply, hmin3, matchesOO]
  · rw [h0]
    simp only [stepsState, List.foldl_cons, List.foldl_nil, stepState, keyChar, hs1, hs2]
  · rw [h0]
    simp only [stepsState, List.foldl_cons, List.foldl_nil, stepState, keyChar,
      keyDown, hs1, hs2, hs3]
  · have hs5 : step cfg4
        { pattern := ['o', 'o'], selected := 1, window := { size := S, offset := 0 },
          match_amount := 3 }
        { code := KeyCode.enter, ctrl := false }
        = StepResult.brk
          { pattern := ['o', 'o'], selected := 1, window := { size := S, offset := 0 },
            match_amount := 3 } := rfl
    rw [mainloop, h0]
    simp only [runLoop, keyChar, keyDown, keyEnter, hs1, hs2, hs3, hs5, hs4]

/-- C9, witness at startup window size 3. -/
theorem spec_c9_witness :
    (3 ≤ 3)
    ∧ mainloop cfg4 3 [keyChar 'o', keyChar 'o', keyDown, keyEnter]
        = some (some "foo".toList) :=
  ⟨by decide, (spec_c9 3 (by decide)).2.2.2⟩

end Zfz
